import Mathlib

/-!
Verification of the `canvas-graphics` plugin
(`src/packages/canvas/canvas-graphics/src/graphics.ts`).

The file shallowly embeds the style-resolution helper (`resolve`), the
first-match property lookup (`use`), the paint dispatcher (`open`, `fill`,
`stroke`) as surface-operation trace generators, the lazy renderer
singleton of `generateCanvasTexture`, and the `_renderCanvas` guard, and
proves the specification claims about them.
-/

namespace CanvasGraphics

/-- JavaScript-ish values stored in style properties. -/
inductive Value
  | vStr (s : String)
  | vNum (i : Int)
  | vBool (b : Bool)
  | vPattern (id : Nat)
deriving DecidableEq, Repr

/-- JavaScript truthiness of a possibly-undefined value; `none` models
`undefined` and is falsy. -/
def truthy : Option Value → Bool
  | none => false
  | some (Value.vStr s) => s ≠ ""
  | some (Value.vNum i) => i ≠ 0
  | some (Value.vBool b) => b
  | some (Value.vPattern _) => true

/-- A heap of style objects: `n` distinct object identities; each object
carries a property map (`props`, `none` = property absent) and an optional
`use` list of other styles it delegates to (empty list = no `use` field).
Styles are compared by identity, i.e. by their `Fin n` index, mirroring the
`WeakSet` identity test in the source. -/
structure Env (n : Nat) where
  props : Fin n → String → Option Value
  use : Fin n → List (Fin n)

/-- Embedding of `resolve(styles, seen)` from `graphics.ts`: for each style
in order, if unseen, mark it seen, push it, then recursively resolve its
`use` list with the (mutated) seen set.  The source mutates `seen` by
adding exactly the styles it pushes, so the seen set after the recursive
call is `insert s seen ∪ out₁.toFinset`; this reformulation passes that set
explicitly. -/
def resolveGo {n : Nat} (env : Env n) : List (Fin n) → Finset (Fin n) → List (Fin n)
  | [], _ => []
  | s :: rest, seen =>
    if s ∈ seen then
      resolveGo env rest seen
    else
      let out1 := resolveGo env (env.use s) (insert s seen)
      s :: out1 ++ resolveGo env rest (insert s seen ∪ out1.toFinset)
termination_by styles seen => ((Finset.univ \ seen).card, styles.length)
decreasing_by
  · exact Prod.Lex.right _ (Nat.lt_succ_self _)
  · apply Prod.Lex.left
    apply Finset.card_lt_card
    constructor
    · intro x hx
      simp only [Finset.mem_sdiff, Finset.mem_insert] at hx ⊢
      exact ⟨hx.1, fun hxs => hx.2 (Or.inr hxs)⟩
    · intro hsub
      have hs : s ∈ Finset.univ \ seen := by
        simp only [Finset.mem_sdiff, Finset.mem_univ, true_and]
        assumption
      have := hsub hs
      simp at this
  · apply Prod.Lex.left
    apply Finset.card_lt_card
    constructor
    · intro x hx
      simp only [Finset.mem_sdiff, Finset.mem_union, Finset.mem_insert] at hx ⊢
      exact ⟨hx.1, fun hxs => hx.2 (Or.inl (Or.inr hxs))⟩
    · intro hsub
      have hs : s ∈ Finset.univ \ seen := by
        simp only [Finset.mem_sdiff, Finset.mem_univ, true_and]
        assumption
      have := hsub hs
      simp at this

/-- Top-level `resolve(styles)` with a fresh empty `seen` set, as called by
`open`. -/
def resolve {n : Nat} (env : Env n) (styles : List (Fin n)) : List (Fin n) :=
  resolveGo env styles ∅

/-- Embedding of the `use` closure built by `open`: scan the resolved list
in order and return the value of the first style that defines `prop`
(`for (const s of styles) if (prop in s) return s[prop]; return undefined`). -/
def useProp {n : Nat} (env : Env n) : List (Fin n) → String → Option Value
  | [], _ => none
  | s :: rest, p =>
    match env.props s p with
    | some v => some v
    | none => useProp env rest p

/-- Operations performed on the drawing surface (`CanvasRenderingContext2D`),
recorded as a trace.  Setter payloads are `Option Value`: `none` records the
literal assignment of `undefined`. -/
inductive SurfaceOp
  | save
  | restore
  | setAlpha (v : Option Value)
  | setComposite (v : Option Value)
  | setFillStyle (v : Option Value)
  | setStrokeStyle (v : Option Value)
  | setLineWidth (v : Option Value)
  | setLineCap (v : Option Value)
  | setLineJoin (v : Option Value)
  | setMiterLimit (v : Option Value)
  | clipOp
  | fillOp
  | strokeOp
deriving DecidableEq, Repr

/-- Does a surface operation assign a defined (non-`undefined`) value to a
surface property? -/
def assignsSome : SurfaceOp → Bool
  | SurfaceOp.setAlpha (some _) => true
  | SurfaceOp.setComposite (some _) => true
  | SurfaceOp.setFillStyle (some _) => true
  | SurfaceOp.setStrokeStyle (some _) => true
  | SurfaceOp.setLineWidth (some _) => true
  | SurfaceOp.setLineCap (some _) => true
  | SurfaceOp.setLineJoin (some _) => true
  | SurfaceOp.setMiterLimit (some _) => true
  | _ => false

/-- Embedding of `open(styles, cb)` from `graphics.ts` as a trace generator.
The callback returns its surface-operation trace paired with `true` when it
completed normally and `false` when it threw.  On the empty input the
callback runs with a constant-`undefined` lookup and no save/restore.
Otherwise the source runs `context.save()`, assigns `globalAlpha` and
`globalCompositeOperation` from first-match lookup, invokes the callback,
then runs `context.restore()`; there is no `try`/`finally`, so when the
callback throws, `restore` is never reached and the exception propagates. -/
def openStyles {n : Nat} (env : Env n) (styles : List (Fin n))
    (body : (String → Option Value) → List SurfaceOp × Bool) : List SurfaceOp × Bool :=
  match styles with
  | [] => body (fun _ => none)
  | _ :: _ =>
    let rs := resolve env styles
    let u := fun p => useProp env rs p
    let b := body u
    (SurfaceOp.save :: SurfaceOp.setAlpha (u "alpha") :: SurfaceOp.setComposite (u "blendMode")
        :: b.1 ++ (if b.2 then [SurfaceOp.restore] else []), b.2)

/-- The callback passed to `open` by `fill`: assign `fillStyle` from lookup,
then invoke `context.fill()`.  `throws` models the drawing primitive
raising when invoked (the invocation appears in the trace; completion flag
is `false`). -/
def fillBody (throws : Bool) (u : String → Option Value) : List SurfaceOp × Bool :=
  ([SurfaceOp.setFillStyle (u "paint"), SurfaceOp.fillOp], !throws)

/-- The callback passed to `open` by `stroke`: assign `strokeStyle`,
`lineWidth`, `lineCap`, `lineJoin`, `miterLimit` from lookup, invoke
`context.clip()` when the resolved `clip` property is truthy, then invoke
`context.stroke()`. -/
def strokeBody (throws : Bool) (u : String → Option Value) : List SurfaceOp × Bool :=
  ([SurfaceOp.setStrokeStyle (u "paint"), SurfaceOp.setLineWidth (u "width"),
    SurfaceOp.setLineCap (u "cap"), SurfaceOp.setLineJoin (u "join"),
    SurfaceOp.setMiterLimit (u "miterLimit")]
    ++ (if truthy (u "clip") then [SurfaceOp.clipOp] else []) ++ [SurfaceOp.strokeOp], !throws)

/-- `fill(styles)` as a trace generator. -/
def fill {n : Nat} (env : Env n) (styles : List (Fin n)) (throws : Bool) :
    List SurfaceOp × Bool :=
  openStyles env styles (fillBody throws)

/-- `stroke(styles)` as a trace generator. -/
def stroke {n : Nat} (env : Env n) (styles : List (Fin n)) (throws : Bool) :
    List SurfaceOp × Bool :=
  openStyles env styles (strokeBody throws)

/-- One `generateCanvasTexture` call's treatment of the module-level
`canvasRenderer` variable: if it is unset (falsy), construct a fresh
renderer (identified by `fresh`) and store it; in all cases use the stored
renderer (`if (!canvasRenderer) canvasRenderer = new CanvasRenderer()`).
Returns the new variable state and the renderer instance used. -/
def genStep (st : Option Nat) (fresh : Nat) : Option Nat × Nat :=
  match st with
  | none => (some fresh, fresh)
  | some r => (some r, r)

/-- The `canvasRenderer` module variable after `k` calls to
`generateCanvasTexture`; call number `k` would construct instance `k` if it
constructs at all. -/
def rendererAfter : Nat → Option Nat
  | 0 => none
  | k + 1 => (genStep (rendererAfter k) k).1

/-- The renderer instance used by call number `k` (0-indexed). -/
def rendererUsed (k : Nat) : Nat := (genStep (rendererAfter k) k).2

/-- Does call number `k` construct a new `CanvasRenderer`? -/
def constructsAt (k : Nat) : Bool := (rendererAfter k).isNone

/-- Steps `_renderCanvas` can take on the graphics object / renderer. -/
inductive RenderStep
  | finishPoly
  | pluginRender
deriving DecidableEq, Repr

/-- Embedding of `Graphics.prototype._renderCanvas`: when `this.isMask ===
true` (strict equality with the boolean `true`), return immediately;
otherwise call `this.finishPoly()` and then
`renderer.plugins.graphics.render(this)`. -/
def renderCanvas (isMask : Value) : List RenderStep :=
  if isMask = Value.vBool true then [] else [RenderStep.finishPoly, RenderStep.pluginRender]

/-- A concrete heap of two styles with no properties and no `use` chains. -/
def envPlain : Env 2 where
  props := fun _ _ => none
  use := fun _ => []

/-- A concrete heap of two mutually `use`-ing styles: style 0 is
`{paint: "blue", use: [style1]}` and style 1 is
`{paint: "red", alpha: 1, use: [style0]}`. -/
def envCycle : Env 2 where
  props := fun s p =>
    if s = 0 then
      if p = "paint" then some (Value.vStr "blue") else none
    else
      if p = "paint" then some (Value.vStr "red")
      else if p = "alpha" then some (Value.vNum 1)
      else none
  use := fun s => if s = 0 then [1] else [0]

/-- `envCycle` after mutating the `paint` property of the later style
(style 1) to `"green"`; styles 0 and the `use` chains are untouched. -/
def envCycleX : Env 2 where
  props := fun s p =>
    if s = 1 ∧ p = "paint" then some (Value.vStr "green") else envCycle.props s p
  use := envCycle.use

/-- A concrete heap of one style `{paint: "red", width: 2, clip: true}`. -/
def envClip : Env 1 where
  props := fun _ p =>
    if p = "paint" then some (Value.vStr "red")
    else if p = "width" then some (Value.vNum 2)
    else if p = "clip" then some (Value.vBool true)
    else none
  use := fun _ => []

end CanvasGraphics

namespace CanvasGraphics

/-! ### Lemmas about `resolve` -/

theorem not_mem_seen_of_mem_resolveGo {n : Nat} (env : Env n) :
    ∀ (L : List (Fin n)) (seen : Finset (Fin n)), ∀ t ∈ resolveGo env L seen, t ∉ seen := by
  intro L seen
  induction L, seen using resolveGo.induct env with
  | case1 seen => simp [resolveGo]
  | case2 s rest seen hs ih =>
    intro t ht
    rw [resolveGo, if_pos hs] at ht
    exact ih t ht
  | case3 s rest seen hs out1 ih1 ihx ih2 =>
    intro t ht hseen
    rw [resolveGo, if_neg hs] at ht
    rcases List.mem_cons.mp ht with h | h
    · exact hs (h ▸ hseen)
    · rcases List.mem_append.mp h with h1 | h2
      · exact ih1 t h1 (Finset.mem_insert_of_mem hseen)
      · exact ih2 t h2 (Finset.mem_union_left _ (Finset.mem_insert_of_mem hseen))

theorem resolveGo_nil {n : Nat} (env : Env n) (seen : Finset (Fin n)) :
    resolveGo env [] seen = [] := by
  rw [resolveGo]

theorem resolveGo_cons_mem {n : Nat} (env : Env n) {s : Fin n} {seen : Finset (Fin n)}
    (rest : List (Fin n)) (hs : s ∈ seen) :
    resolveGo env (s :: rest) seen = resolveGo env rest seen := by
  rw [resolveGo, if_pos hs]

theorem resolveGo_cons_not_mem {n : Nat} (env : Env n) {s : Fin n} {seen : Finset (Fin n)}
    (rest : List (Fin n)) (hs : s ∉ seen) :
    resolveGo env (s :: rest) seen =
      s :: resolveGo env (env.use s) (insert s seen)
        ++ resolveGo env rest
            (insert s seen ∪ (resolveGo env (env.use s) (insert s seen)).toFinset) := by
  rw [resolveGo, if_neg hs]

theorem resolveGo_nodup {n : Nat} (env : Env n) :
    ∀ (L : List (Fin n)) (seen : Finset (Fin n)), (resolveGo env L seen).Nodup := by
  intro L seen
  induction L, seen using resolveGo.induct env with
  | case1 seen => simp [resolveGo_nil]
  | case2 s rest seen hs ih => rw [resolveGo_cons_mem env rest hs]; exact ih
  | case3 s rest seen hs out1 ih1 ihx ih2 =>
    rw [resolveGo_cons_not_mem env rest hs]
    have hse1 : s ∉ resolveGo env (env.use s) (insert s seen) := fun hmem =>
      not_mem_seen_of_mem_resolveGo env _ _ s hmem (Finset.mem_insert_self s seen)
    have hse2 : s ∉ resolveGo env rest
        (insert s seen ∪ (resolveGo env (env.use s) (insert s seen)).toFinset) := fun hmem =>
      not_mem_seen_of_mem_resolveGo env _ _ s hmem
        (Finset.mem_union_left _ (Finset.mem_insert_self s seen))
    refine List.nodup_cons.mpr ⟨fun hmem => ?_, List.Nodup.append ih1 ih2 ?_⟩
    · rcases List.mem_append.mp hmem with h | h
      · exact hse1 h
      · exact hse2 h
    · intro a ha1 ha2
      exact not_mem_seen_of_mem_resolveGo env _ _ a ha2
        (Finset.mem_union_right _ (List.mem_toFinset.mpr ha1))

theorem mem_resolveGo_of_mem {n : Nat} (env : Env n) :
    ∀ (L : List (Fin n)) (seen : Finset (Fin n)) (t : Fin n),
      t ∈ L → t ∉ seen → t ∈ resolveGo env L seen := by
  intro L seen
  induction L, seen using resolveGo.induct env with
  | case1 seen => simp
  | case2 s rest seen hs ih =>
    intro t ht hts
    rw [resolveGo_cons_mem env rest hs]
    rcases List.mem_cons.mp ht with h | h
    · exact absurd (h ▸ hs) hts
    · exact ih t h hts
  | case3 s rest seen hs out1 ih1 ihx ih2 =>
    intro t ht hts
    rw [resolveGo_cons_not_mem env rest hs]
    rcases List.mem_cons.mp ht with h | h
    · exact h ▸ List.mem_cons_self _ _
    · by_cases hm : t ∈ insert s seen ∪ (resolveGo env (env.use s) (insert s seen)).toFinset
      · rcases Finset.mem_union.mp hm with h1 | h1
        · rcases Finset.mem_insert.mp h1 with h2 | h2
          · exact h2 ▸ List.mem_cons_self _ _
          · exact absurd h2 hts
        · exact List.mem_cons_of_mem _ (List.mem_append_left _ (List.mem_toFinset.mp h1))
      · exact List.mem_cons_of_mem _ (List.mem_append_right _ (ih2 t h hm))

theorem resolveGo_eq_self {n : Nat} (env : Env n) :
    ∀ (L : List (Fin n)) (seen : Finset (Fin n)),
      (∀ s ∈ L, env.use s = []) → L.Nodup → (∀ s ∈ L, s ∉ seen) →
      resolveGo env L seen = L := by
  intro L
  induction L with
  | nil => intro seen _ _ _; exact resolveGo_nil env seen
  | cons s rest ih =>
    intro seen hu hnd hns
    rw [resolveGo_cons_not_mem env rest (hns s (List.mem_cons_self _ _))]
    rw [hu s (List.mem_cons_self _ _), resolveGo_nil]
    simp only [List.toFinset_nil, Finset.union_empty, List.nil_append]
    rw [ih (insert s seen) (fun t ht => hu t (List.mem_cons_of_mem _ ht))
      (List.Nodup.of_cons hnd)
      (fun t ht hmem => by
        rcases Finset.mem_insert.mp hmem with h | h
        · exact (List.nodup_cons.mp hnd).1 (h ▸ ht)
        · exact hns t (List.mem_cons_of_mem _ ht) h)]
    rfl

/-! ### Lemmas about the first-match lookup -/

theorem useProp_cons_some {n : Nat} (env : Env n) {s : Fin n} {p : String} {v : Value}
    (rest : List (Fin n)) (hv : env.props s p = some v) :
    useProp env (s :: rest) p = some v := by
  simp [useProp, hv]

theorem useProp_cons_none {n : Nat} (env : Env n) {s : Fin n} {p : String}
    (rest : List (Fin n)) (hv : env.props s p = none) :
    useProp env (s :: rest) p = useProp env rest p := by
  simp [useProp, hv]

theorem useProp_append_none {n : Nat} (env : Env n) {p : String} :
    ∀ (L1 L2 : List (Fin n)), (∀ t ∈ L1, env.props t p = none) →
      useProp env (L1 ++ L2) p = useProp env L2 p := by
  intro L1
  induction L1 with
  | nil => intro L2 _; rfl
  | cons x rest ih =>
    intro L2 hnone
    rw [List.cons_append, useProp_cons_none env _ (hnone x (List.mem_cons_self _ _))]
    exact ih L2 (fun t ht => hnone t (List.mem_cons_of_mem _ ht))

theorem useProp_eq_none {n : Nat} (env : Env n) :
    ∀ (L : List (Fin n)) (p : String), (∀ t ∈ L, env.props t p = none) →
      useProp env L p = none := by
  intro L
  induction L with
  | nil => intro p _; rfl
  | cons x rest ih =>
    intro p hnone
    rw [useProp_cons_none env _ (hnone x (List.mem_cons_self _ _))]
    exact ih p (fun t ht => hnone t (List.mem_cons_of_mem _ ht))

end CanvasGraphics

namespace CanvasGraphics

/-! ### Claim theorems -/

/-- C5: for every style list in which no style has a `use` list and no two
elements are the same style by identity, `resolve` returns exactly the
input list, with the same elements in the same order. -/
theorem resolve_eq_self_of_no_use {n : Nat} (env : Env n) (L : List (Fin n))
    (hu : ∀ s ∈ L, env.use s = []) (hnd : L.Nodup) :
    resolve env L = L :=
  resolveGo_eq_self env L ∅ hu hnd (fun s _ => Finset.not_mem_empty s)

/-- C5 witness: two distinct `use`-free styles resolve to themselves. -/
theorem resolve_eq_self_of_no_use_witness :
    resolve envPlain [0, 1] = [0, 1] :=
  resolve_eq_self_of_no_use envPlain [0, 1] (by decide) (by decide)

/-- C2: for every pair of distinct styles `a`, `b` with `b` in `a`'s `use`
list and `a` in `b`'s `use` list, `resolve [a]` terminates (it is a total
Lean function) and its output contains each of `a` and `b` exactly once,
with `a` ordered before `b`. -/
theorem resolve_cycle {n : Nat} (env : Env n) (a b : Fin n) (hab : a ≠ b)
    (hba : b ∈ env.use a) (hcyc : a ∈ env.use b) :
    (resolve env [a]).count a = 1 ∧ (resolve env [a]).count b = 1 ∧
    (resolve env [a]).indexOf a < (resolve env [a]).indexOf b := by
  have hres : resolve env [a] = a :: resolveGo env (env.use a) (insert a ∅) := by
    rw [resolve, resolveGo_cons_not_mem env [] (Finset.not_mem_empty a), resolveGo_nil,
      List.append_nil]
  have hbmem : b ∈ resolveGo env (env.use a) (insert a ∅) :=
    mem_resolveGo_of_mem env _ _ b hba (by simp [hab.symm])
  have hnd : (resolve env [a]).Nodup := by rw [resolve]; exact resolveGo_nodup env _ _
  have hamem : a ∈ resolve env [a] := by rw [hres]; exact List.mem_cons_self _ _
  have hbmem2 : b ∈ resolve env [a] := by rw [hres]; exact List.mem_cons_of_mem _ hbmem
  refine ⟨List.count_eq_one_of_mem hnd hamem, List.count_eq_one_of_mem hnd hbmem2, ?_⟩
  rw [hres, List.indexOf_cons_self, List.indexOf_cons_ne _ hab]
  exact Nat.succ_pos _

/-- C2 witness: the mutual cycle `envCycle` (style 0 uses 1, style 1 uses
0) resolves from style 0 to a list with each style once, 0 before 1. -/
theorem resolve_cycle_witness :
    (resolve envCycle [0]).count 0 = 1 ∧ (resolve envCycle [0]).count 1 = 1 ∧
    (resolve envCycle [0]).indexOf 0 < (resolve envCycle [0]).indexOf 1 :=
  resolve_cycle envCycle 0 1 (by decide) (by simp [envCycle]) (by simp [envCycle])

/-- C4: the output of `resolve` contains each distinct style (by identity)
at most once (`Nodup`), and whenever an unseen style `s` is expanded during
the traversal, `s` is placed before every style first reached through its
own `use` chain (the styles emitted by the recursive resolution of
`env.use s`), i.e. depth-first pre-order: a style's own properties precede
its dependencies' properties in lookup order. -/
theorem resolve_nodup_preorder {n : Nat} (env : Env n) (styles : List (Fin n)) :
    (resolve env styles).Nodup ∧
    ∀ (s : Fin n) (rest : List (Fin n)) (seen : Finset (Fin n)), s ∉ seen →
      ∀ t ∈ resolveGo env (env.use s) (insert s seen),
        (resolveGo env (s :: rest) seen).indexOf s <
          (resolveGo env (s :: rest) seen).indexOf t := by
  refine ⟨resolveGo_nodup env styles ∅, ?_⟩
  intro s rest seen hs t ht
  have hts : t ∉ insert s seen := not_mem_seen_of_mem_resolveGo env _ _ t ht
  have hne : t ≠ s := fun h => hts (h ▸ Finset.mem_insert_self s seen)
  rw [resolveGo_cons_not_mem env rest hs, List.cons_append, List.indexOf_cons_self,
    List.indexOf_cons_ne _ hne.symm]
  exact Nat.succ_pos _

/-- C4 witness: in `envCycle`, resolving from style 0 is duplicate-free and
style 0 precedes its dependency style 1. -/
theorem resolve_nodup_preorder_witness :
    (resolve envCycle [0]).Nodup ∧
    (resolveGo envCycle [(0 : Fin 2)] ∅).indexOf 0 < (resolveGo envCycle [0] ∅).indexOf 1 :=
  ⟨(resolve_nodup_preorder envCycle [0]).1,
   (resolve_nodup_preorder envCycle [0]).2 0 [] ∅ (by simp) 1 (by simp [resolveGo, envCycle])⟩

/-- C3: on a resolved style list split as `L1 ++ s :: L2` where no style of
`L1` defines property `p` and `s` defines it, the lookup returns `s`'s
value (the first defining style in list order); and for any second heap
`env2` that agrees with `env` on `p` for `L1` and `s` (i.e. only styles
after the first definer were changed), the lookup result is unchanged.
(`resolve` never reads `props`, so the resolved list itself is unaffected
by property changes.) -/
theorem useProp_first_defining {n : Nat} (env env2 : Env n) (styles : List (Fin n)) (p : String)
    (L1 L2 : List (Fin n)) (s : Fin n)
    (hsplit : resolve env styles = L1 ++ s :: L2)
    (hnone : ∀ t ∈ L1, env.props t p = none)
    (hv : (env.props s p).isSome)
    (hagree1 : ∀ t ∈ L1, env2.props t p = env.props t p)
    (hagree2 : env2.props s p = env.props s p) :
    useProp env (resolve env styles) p = env.props s p ∧
    useProp env2 (resolve env styles) p = useProp env (resolve env styles) p := by
  obtain ⟨v, hv2⟩ := Option.isSome_iff_exists.mp hv
  have h1 : useProp env (resolve env styles) p = some v := by
    rw [hsplit, useProp_append_none env L1 _ hnone, useProp_cons_some env _ hv2]
  have h2 : useProp env2 (resolve env styles) p = some v := by
    rw [hsplit, useProp_append_none env2 L1 _ (fun t ht => (hagree1 t ht).trans (hnone t ht)),
      useProp_cons_some env2 _ (hagree2.trans hv2)]
  exact ⟨by rw [h1, hv2], by rw [h1, h2]⟩

/-- C3 witness: in `envCycle`, lookup of `paint` on the resolved list
`[0, 1]` returns style 0's `"blue"`, and changing style 1's `paint` (to
`"green"` in `envCycleX`) does not change the result. -/
theorem useProp_first_defining_witness :
    useProp envCycle (resolve envCycle [0]) "paint" = envCycle.props 0 "paint" ∧
    useProp envCycleX (resolve envCycle [0]) "paint" =
      useProp envCycle (resolve envCycle [0]) "paint" :=
  useProp_first_defining envCycle envCycleX [0] "paint" [] [1] 0
    (by simp [resolve, resolveGo, envCycle]) (by simp) (by decide) (by simp) (by decide)

/-- C1 (amended): for every non-empty style input, on the
normal-completion path the dispatch performs exactly one `save` and one
`restore` and the trace ends with `restore`; but on the path where the
drawing primitive throws, `restore` is not invoked at all (the source has
no `try`/`finally`), leaving the `save` unbalanced. -/
theorem save_restore_paths {n : Nat} (env : Env n) (styles : List (Fin n)) (h : styles ≠ []) :
    ((fill env styles false).1.count SurfaceOp.save = 1 ∧
     (fill env styles false).1.count SurfaceOp.restore = 1 ∧
     (fill env styles false).1.getLast? = some SurfaceOp.restore) ∧
    ((stroke env styles false).1.count SurfaceOp.save = 1 ∧
     (stroke env styles false).1.count SurfaceOp.restore = 1 ∧
     (stroke env styles false).1.getLast? = some SurfaceOp.restore) ∧
    (SurfaceOp.save ∈ (fill env styles true).1 ∧
     SurfaceOp.restore ∉ (fill env styles true).1) ∧
    (SurfaceOp.save ∈ (stroke env styles true).1 ∧
     SurfaceOp.restore ∉ (stroke env styles true).1) := by
  cases styles with
  | nil => exact absurd rfl h
  | cons s0 rest =>
    refine ⟨⟨?_, ?_, ?_⟩, ⟨?_, ?_, ?_⟩, ⟨?_, ?_⟩, ⟨?_, ?_⟩⟩
    · simp [fill, openStyles, fillBody, List.count_cons, List.count_append]
    · simp [fill, openStyles, fillBody, List.count_cons, List.count_append]
    · simp [fill, openStyles, fillBody, List.getLast?_append]
    · simp [stroke, openStyles, strokeBody, List.count_cons, List.count_append]
      by_cases hc : truthy (useProp env (resolve env (s0 :: rest)) "clip") <;> simp [hc]
    · simp [stroke, openStyles, strokeBody, List.count_cons, List.count_append]
      by_cases hc : truthy (useProp env (resolve env (s0 :: rest)) "clip") <;> simp [hc]
    · by_cases hc : truthy (useProp env (resolve env (s0 :: rest)) "clip") <;>
        simp [stroke, openStyles, strokeBody, hc]
    · simp [fill, openStyles]
    · simp [fill, openStyles, fillBody]
    · simp [stroke, openStyles]
    · intro hmem
      by_cases hc : truthy (useProp env (resolve env (s0 :: rest)) "clip") <;>
        simp [stroke, openStyles, strokeBody, hc] at hmem

/-- C1 witness: for the concrete one-style dispatch, the normal path is
save/restore balanced and the throwing path performs no `restore`. -/
theorem save_restore_paths_witness :
    (fill envPlain [0] false).1.count SurfaceOp.save = 1 ∧
    (fill envPlain [0] false).1.getLast? = some SurfaceOp.restore ∧
    SurfaceOp.restore ∉ (fill envPlain [0] true).1 := by
  obtain ⟨⟨a1, _, a3⟩, _, ⟨_, c2⟩, _⟩ := save_restore_paths envPlain [0] (by simp)
  exact ⟨a1, a3, c2⟩

/-- C1 counterexample: a concrete non-empty `fill` dispatch whose drawing
primitive throws acquires the surface state (`save` is in the trace) but
never releases it (`restore` is not), refuting the claim that `restore`
runs on every exit path including the throwing one. -/
theorem fill_throw_save_unbalanced :
    SurfaceOp.save ∈ (fill envPlain [0] true).1 ∧
    SurfaceOp.restore ∉ (fill envPlain [0] true).1 ∧
    (fill envPlain [0] true).2 = false := by
  refine ⟨?_, ?_, rfl⟩ <;> simp [fill, openStyles, fillBody, resolve, resolveGo, envPlain]

/-- C6: with an empty style list, `fill` and `stroke` still invoke the
drawing primitive, never invoke `save`/`restore`, and every property
assignment they perform carries the `undefined` value (so nothing beyond
the ambient surface state is overridden). -/
theorem fill_stroke_empty {n : Nat} (env : Env n) :
    (fill env [] false).1 = [SurfaceOp.setFillStyle none, SurfaceOp.fillOp] ∧
    (stroke env [] false).1 =
      [SurfaceOp.setStrokeStyle none, SurfaceOp.setLineWidth none, SurfaceOp.setLineCap none,
       SurfaceOp.setLineJoin none, SurfaceOp.setMiterLimit none, SurfaceOp.strokeOp] ∧
    SurfaceOp.save ∉ (fill env [] false).1 ∧ SurfaceOp.restore ∉ (fill env [] false).1 ∧
    SurfaceOp.save ∉ (stroke env [] false).1 ∧ SurfaceOp.restore ∉ (stroke env [] false).1 ∧
    SurfaceOp.fillOp ∈ (fill env [] false).1 ∧ SurfaceOp.strokeOp ∈ (stroke env [] false).1 ∧
    (∀ op ∈ (fill env [] false).1, assignsSome op = false) ∧
    (∀ op ∈ (stroke env [] false).1, assignsSome op = false) := by
  refine ⟨rfl, ?_, ?_, ?_, ?_, ?_, ?_, ?_, ?_, ?_⟩ <;>
    simp [fill, stroke, openStyles, fillBody, strokeBody, truthy, assignsSome]

/-- C6 witness: on the concrete heap, `fill([])` performs the fill
primitive, and its `fillStyle` assignment carries `undefined`. -/
theorem fill_stroke_empty_witness :
    SurfaceOp.fillOp ∈ (fill envPlain [] false).1 ∧
    assignsSome (SurfaceOp.setFillStyle none) = false := by
  obtain ⟨_, _, _, _, _, _, h7, _, h9, _⟩ := fill_stroke_empty envPlain
  exact ⟨h7, h9 _ (by simp [fill, openStyles, fillBody])⟩

/-- C7: for a non-empty `stroke` dispatch whose resolved `clip` property is
truthy, the trace is exactly save, the opacity and composite assignments,
the five stroke-property assignments from first-match lookup, then `clip`,
then `stroke`, then restore — so `clip` runs before `stroke` and all
stroke properties are assigned before either; when `clip` resolves falsy,
`clip` is not invoked. -/
theorem stroke_clip_order {n : Nat} (env : Env n) (styles : List (Fin n)) (h : styles ≠ []) :
    (truthy (useProp env (resolve env styles) "clip") = true →
      (stroke env styles false).1 =
        [SurfaceOp.save, SurfaceOp.setAlpha (useProp env (resolve env styles) "alpha"),
         SurfaceOp.setComposite (useProp env (resolve env styles) "blendMode"),
         SurfaceOp.setStrokeStyle (useProp env (resolve env styles) "paint"),
         SurfaceOp.setLineWidth (useProp env (resolve env styles) "width"),
         SurfaceOp.setLineCap (useProp env (resolve env styles) "cap"),
         SurfaceOp.setLineJoin (useProp env (resolve env styles) "join"),
         SurfaceOp.setMiterLimit (useProp env (resolve env styles) "miterLimit"),
         SurfaceOp.clipOp, SurfaceOp.strokeOp, SurfaceOp.restore]) ∧
    (truthy (useProp env (resolve env styles) "clip") = false →
      SurfaceOp.clipOp ∉ (stroke env styles false).1 ∧
      SurfaceOp.strokeOp ∈ (stroke env styles false).1) := by
  cases styles with
  | nil => exact absurd rfl h
  | cons s0 rest =>
    constructor
    · intro hc
      simp [stroke, openStyles, strokeBody, hc]
    · intro hc
      constructor <;> simp [stroke, openStyles, strokeBody, hc]

/-- C7 witness: `stroke([{paint: "red", width: 2, clip: true}])` sets the
stroke paint and line width, then clips, then strokes. -/
theorem stroke_clip_order_witness :
    (stroke envClip [0] false).1 =
      [SurfaceOp.save, SurfaceOp.setAlpha none, SurfaceOp.setComposite none,
       SurfaceOp.setStrokeStyle (some (Value.vStr "red")),
       SurfaceOp.setLineWidth (some (Value.vNum 2)),
       SurfaceOp.setLineCap none, SurfaceOp.setLineJoin none, SurfaceOp.setMiterLimit none,
       SurfaceOp.clipOp, SurfaceOp.strokeOp, SurfaceOp.restore] := by
  rw [(stroke_clip_order envClip [0] (by simp)).1
    (by simp [resolve, resolveGo, useProp, envClip, truthy])]
  simp [resolve, resolveGo, useProp, envClip]

/-- C8: for every non-empty dispatch, when no style in the resolved list
defines a property, the lookup returns `undefined` (`none`), and the
corresponding surface assignment carrying that `undefined` value is still
performed (it appears in the trace). -/
theorem undefined_lookup_assigned {n : Nat} (env : Env n) (styles : List (Fin n))
    (h : styles ≠ []) :
    (∀ p, (∀ t ∈ resolve env styles, env.props t p = none) →
      useProp env (resolve env styles) p = none) ∧
    ((∀ t ∈ resolve env styles, env.props t "alpha" = none) →
      SurfaceOp.setAlpha none ∈ (fill env styles false).1 ∧
      SurfaceOp.setAlpha none ∈ (stroke env styles false).1) ∧
    ((∀ t ∈ resolve env styles, env.props t "blendMode" = none) →
      SurfaceOp.setComposite none ∈ (fill env styles false).1 ∧
      SurfaceOp.setComposite none ∈ (stroke env styles false).1) ∧
    ((∀ t ∈ resolve env styles, env.props t "paint" = none) →
      SurfaceOp.setFillStyle none ∈ (fill env styles false).1 ∧
      SurfaceOp.setStrokeStyle none ∈ (stroke env styles false).1) ∧
    ((∀ t ∈ resolve env styles, env.props t "width" = none) →
      SurfaceOp.setLineWidth none ∈ (stroke env styles false).1) ∧
    ((∀ t ∈ resolve env styles, env.props t "cap" = none) →
      SurfaceOp.setLineCap none ∈ (stroke env styles false).1) ∧
    ((∀ t ∈ resolve env styles, env.props t "join" = none) →
      SurfaceOp.setLineJoin none ∈ (stroke env styles false).1) ∧
    ((∀ t ∈ resolve env styles, env.props t "miterLimit" = none) →
      SurfaceOp.setMiterLimit none ∈ (stroke env styles false).1) := by
  cases styles with
  | nil => exact absurd rfl h
  | cons s0 rest =>
    refine ⟨fun p hp => useProp_eq_none env _ p hp, ?_, ?_, ?_, ?_, ?_, ?_, ?_⟩ <;>
      intro hp <;>
      simp [fill, stroke, openStyles, fillBody, strokeBody,
        useProp_eq_none env (resolve env (s0 :: rest)) _ hp]

/-- C8 witness: in the propertyless heap, the `alpha` lookup yields
`undefined`, and the dispatcher still assigns it (likewise `lineWidth`). -/
theorem undefined_lookup_assigned_witness :
    useProp envPlain (resolve envPlain [0]) "alpha" = none ∧
    SurfaceOp.setAlpha none ∈ (fill envPlain [0] false).1 ∧
    SurfaceOp.setLineWidth none ∈ (stroke envPlain [0] false).1 := by
  obtain ⟨h1, h2, _, _, h5, _, _, _⟩ := undefined_lookup_assigned envPlain [0] (by simp)
  exact ⟨h1 "alpha" (fun t _ => rfl), (h2 (fun t _ => rfl)).1, h5 (fun t _ => rfl)⟩

/-- C9: across every call sequence, the shared offscreen `CanvasRenderer`
is constructed exactly once — on the first call (instance 0) — and every
later call reuses that same instance; the stored renderer is never torn
down or replaced. -/
theorem renderer_singleton : ∀ k : Nat,
    rendererAfter (k + 1) = some 0 ∧ rendererUsed k = 0 ∧
    constructsAt 0 = true ∧ constructsAt (k + 1) = false := by
  intro k
  induction k with
  | zero => exact ⟨rfl, rfl, rfl, rfl⟩
  | succ m ih =>
    refine ⟨?_, ?_, rfl, ?_⟩
    · show (genStep (rendererAfter (m + 1)) (m + 1)).1 = some 0
      rw [ih.1]; rfl
    · show (genStep (rendererAfter (m + 1)) (m + 1)).2 = 0
      rw [ih.1]; rfl
    · show (rendererAfter (m + 1 + 1)).isNone = false
      have h2 : rendererAfter (m + 1 + 1) = (genStep (rendererAfter (m + 1)) (m + 1)).1 := rfl
      rw [h2, ih.1]; rfl

/-- C10: `_renderCanvas` returns immediately (no `finishPoly`, no plugin
render) exactly when `isMask` is strictly the boolean `true`; for every
other value it calls `finishPoly` and then the graphics plugin's render,
in that order. -/
theorem renderCanvas_mask_guard : ∀ v : Value,
    (v = Value.vBool true → renderCanvas v = []) ∧
    (v ≠ Value.vBool true →
      renderCanvas v = [RenderStep.finishPoly, RenderStep.pluginRender]) := by
  intro v
  constructor
  · intro hv; simp [renderCanvas, hv]
  · intro hv; simp [renderCanvas, hv]

/-- C10 witness: the guard at the boolean `true` and at the truthy
non-boolean `1`. -/
theorem renderCanvas_mask_guard_witness :
    renderCanvas (Value.vBool true) = [] ∧
    renderCanvas (Value.vNum 1) = [RenderStep.finishPoly, RenderStep.pluginRender] :=
  ⟨(renderCanvas_mask_guard _).1 rfl, (renderCanvas_mask_guard _).2 (by decide)⟩

end CanvasGraphics
